import Mathlib

/-!
# Verification of kiro2api against its specification

Shallow embedding of the Go sources of the kiro2api reverse proxy:
usage-limit accounting (`types/usage_limits.go`, `auth/usage_checker.go`),
credential loading (`auth` config processing), the config store CRUD,
tool normalization and request validation of the `/v1/messages` handler,
the non-streaming response assembly, and email masking
(`server/config_handler.go`).

Go `float64` quota quantities are embedded as exact rationals `ℚ`;
Go strings are embedded as `List Char`; the byte-level index arithmetic of
the source coincides with character indexing on ASCII data, which is the
reading used here.
-/

namespace Kiro2api

/-! ## Usage-limits data model (`types/usage_limits.go`) -/

/-- Embeds `types.FreeTrialInfo` (the fields the accounting reads). -/
structure FreeTrialInfo where
  freeTrialStatus : String
  usageLimitWithPrecision : ℚ
  currentUsageWithPrecision : ℚ
  deriving Repr, DecidableEq

/-- Embeds `types.BonusInfo` (the fields the accounting reads). -/
structure BonusInfo where
  usageLimit : ℚ
  currentUsage : ℚ
  deriving Repr, DecidableEq

/-- Embeds `types.UsageBreakdown` (the fields the accounting reads). -/
structure UsageBreakdown where
  resourceType : String
  usageLimitWithPrecision : ℚ
  currentUsageWithPrecision : ℚ
  freeTrialInfo : Option FreeTrialInfo
  bonuses : List BonusInfo
  deriving Repr, DecidableEq

/-- Embeds `types.UsageLimits` (the field the accounting reads). -/
structure UsageLimits where
  usageBreakdownList : List UsageBreakdown
  deriving Repr, DecidableEq

/-- Whether the free trial attached to a breakdown is present and `ACTIVE`
(the guard `breakdown.FreeTrialInfo != nil && ... == "ACTIVE"`). -/
def freeTrialActive (b : UsageBreakdown) : Bool :=
  match b.freeTrialInfo with
  | some ft => ft.freeTrialStatus == "ACTIVE"
  | none => false

/-- Embeds the loop body of `TokenWithUsage.GetAvailableCount` on the first
`CREDIT` breakdown: active free trial (limit − usage) plus base
(limit − usage), returning `0` when the total is negative. -/
def creditAvailableCount (b : UsageBreakdown) : ℚ :=
  let freeTrial : ℚ :=
    match b.freeTrialInfo with
    | some ft =>
        if ft.freeTrialStatus == "ACTIVE" then
          ft.usageLimitWithPrecision - ft.currentUsageWithPrecision
        else 0
    | none => 0
  let totalAvailable :=
    freeTrial + (b.usageLimitWithPrecision - b.currentUsageWithPrecision)
  if totalAvailable < 0 then 0 else totalAvailable

/-- Embeds `TokenWithUsage.GetAvailableCount`: walk `UsageBreakdownList`,
return the computed total for the first breakdown whose resource type is
`CREDIT`, `0` when there is none or when `UsageLimits` is nil. -/
def GetAvailableCount (limits : Option UsageLimits) : ℚ :=
  match limits with
  | none => 0
  | some l => go l.usageBreakdownList
where
  /-- The `for … range` loop of `GetAvailableCount`. -/
  go : List UsageBreakdown → ℚ
  | [] => 0
  | b :: rest => if b.resourceType == "CREDIT" then creditAvailableCount b else go rest

/-! ## Usage checker (`auth/usage_checker.go`) -/

/-- Embeds the quota fields of `auth.UsageCheckResult` together with its
status classification. -/
structure UsageCheckTotals where
  totalLimit : ℚ
  totalUsed : ℚ
  available : ℚ
  deriving Repr, DecidableEq

/-- Embeds the accumulation performed by `CheckUsageLimitsWithStatus` on the
first `CREDIT` breakdown: base limit/usage, plus active free-trial
limit/usage, plus every bonus limit/usage; `Available` is the difference
clamped below at `0`. -/
def creditTotals (b : UsageBreakdown) : UsageCheckTotals :=
  let baseLimit := b.usageLimitWithPrecision
  let baseUsed := b.currentUsageWithPrecision
  let ftLimit : ℚ :=
    match b.freeTrialInfo with
    | some ft => if ft.freeTrialStatus == "ACTIVE" then ft.usageLimitWithPrecision else 0
    | none => 0
  let ftUsed : ℚ :=
    match b.freeTrialInfo with
    | some ft => if ft.freeTrialStatus == "ACTIVE" then ft.currentUsageWithPrecision else 0
    | none => 0
  let bonusLimit := (b.bonuses.map BonusInfo.usageLimit).sum
  let bonusUsed := (b.bonuses.map BonusInfo.currentUsage).sum
  let totalLimit := baseLimit + ftLimit + bonusLimit
  let totalUsed := baseUsed + ftUsed + bonusUsed
  let available := totalLimit - totalUsed
  { totalLimit := totalLimit
    totalUsed := totalUsed
    available := if available < 0 then 0 else available }

/-- Embeds the `for … range usageLimits.UsageBreakdownList` loop of
`CheckUsageLimitsWithStatus` (lines 113–137): the result fields stay at
their zero values until the first `CREDIT` breakdown, which sets them and
breaks. -/
def checkerTotals : List UsageBreakdown → UsageCheckTotals
  | [] => { totalLimit := 0, totalUsed := 0, available := 0 }
  | b :: rest =>
      if b.resourceType == "CREDIT" then creditTotals b else checkerTotals rest

/-! ## The specification formula for `Available` (§3 of the spec)

`Available = Σ (limit − used) over base + active free-trial + bonuses,
clamped at 0`, stated from the spec's words, to be compared with the two
source-derived computations above. -/

/-- The spec's formula for the available quota of one `CREDIT` breakdown. -/
def specAvailable (b : UsageBreakdown) : ℚ :=
  let base := b.usageLimitWithPrecision - b.currentUsageWithPrecision
  let freeTrial : ℚ :=
    match b.freeTrialInfo with
    | some ft =>
        if ft.freeTrialStatus == "ACTIVE" then
          ft.usageLimitWithPrecision - ft.currentUsageWithPrecision
        else 0
    | none => 0
  let bonuses := (b.bonuses.map (fun bo => bo.usageLimit - bo.currentUsage)).sum
  max 0 (base + freeTrial + bonuses)

/-- The spec's formula restricted to base plus active free trial, without
the bonus term; this is what `GetAvailableCount` actually computes. -/
def specAvailableNoBonuses (b : UsageBreakdown) : ℚ :=
  let base := b.usageLimitWithPrecision - b.currentUsageWithPrecision
  let freeTrial : ℚ :=
    match b.freeTrialInfo with
    | some ft =>
        if ft.freeTrialStatus == "ACTIVE" then
          ft.usageLimitWithPrecision - ft.currentUsageWithPrecision
        else 0
    | none => 0
  max 0 (base + freeTrial)

/-- Clamping by an `if … < 0` equals `max 0`. -/
theorem ite_neg_zero_eq_max (x : ℚ) : (if x < 0 then 0 else x) = max 0 x := by
  rcases lt_or_le x 0 with h | h
  · simp [h, max_eq_left h.le]
  · simp [not_lt.mpr h, max_eq_right h]

/-- Summing per-bonus differences equals the difference of the sums. -/
theorem bonus_sum_sub (l : List BonusInfo) :
    (l.map (fun bo => bo.usageLimit - bo.currentUsage)).sum
      = (l.map BonusInfo.usageLimit).sum - (l.map BonusInfo.currentUsage).sum := by
  induction l with
  | nil => simp
  | cons b t ih => simp only [List.map_cons, List.sum_cons, ih]; ring

/-- On one breakdown the checker's clamped difference is the spec formula. -/
theorem creditTotals_available_eq_spec (b : UsageBreakdown) :
    (creditTotals b).available = specAvailable b := by
  unfold creditTotals specAvailable
  rcases b.freeTrialInfo with _ | ft
  · simp only [ite_neg_zero_eq_max, bonus_sum_sub]
    ring_nf
  · by_cases h : ft.freeTrialStatus == "ACTIVE"
    · simp only [h, if_true, ite_neg_zero_eq_max, bonus_sum_sub]
      ring_nf
    · have h' : (ft.freeTrialStatus == "ACTIVE") = false := by
        rwa [Bool.not_eq_true] at h
      simp only [h', Bool.false_eq_true, if_false, ite_neg_zero_eq_max, bonus_sum_sub]
      ring_nf

/-- On one breakdown `GetAvailableCount`'s loop body is the spec formula
without bonuses. -/
theorem creditAvailableCount_eq_spec (b : UsageBreakdown) :
    creditAvailableCount b = specAvailableNoBonuses b := by
  unfold creditAvailableCount specAvailableNoBonuses
  rcases b.freeTrialInfo with _ | ft
  · simp only [ite_neg_zero_eq_max]
    ring_nf
  · by_cases h : ft.freeTrialStatus == "ACTIVE"
    · simp only [h, if_true, ite_neg_zero_eq_max]
      ring_nf
    · have h' : (ft.freeTrialStatus == "ACTIVE") = false := by
        rwa [Bool.not_eq_true] at h
      simp only [h', Bool.false_eq_true, if_false, ite_neg_zero_eq_max]
      ring_nf

/-- The search both loops perform: the first breakdown whose resource type
is `CREDIT`. -/
def firstCredit : List UsageBreakdown → Option UsageBreakdown
  | [] => none
  | b :: rest => if b.resourceType == "CREDIT" then some b else firstCredit rest

/-- A concrete usage response used to separate the two derivations of
`available`: zero base quota, no free trial, one bonus worth 5. -/
def bonusOnlyBreakdown : UsageBreakdown :=
  { resourceType := "CREDIT"
    usageLimitWithPrecision := 0
    currentUsageWithPrecision := 0
    freeTrialInfo := none
    bonuses := [{ usageLimit := 5, currentUsage := 0 }] }

/-- C1 counterexample: on a `CREDIT` breakdown whose only quota is a bonus
worth 5, the spec formula (and the checker) give 5, but
`GetAvailableCount` gives 0 — so the claimed formula does not hold for
`TokenWithUsage.GetAvailableCount`. -/
theorem getAvailableCount_ignores_bonuses :
    specAvailable bonusOnlyBreakdown = 5 ∧
    (checkerTotals [bonusOnlyBreakdown]).available = 5 ∧
    GetAvailableCount (some { usageBreakdownList := [bonusOnlyBreakdown] }) = 0 := by
  refine ⟨?_, ?_, ?_⟩
  · norm_num [specAvailable, bonusOnlyBreakdown]
  · norm_num [checkerTotals, creditTotals, bonusOnlyBreakdown]
  · norm_num [GetAvailableCount, GetAvailableCount.go, creditAvailableCount,
      bonusOnlyBreakdown]

/-- C1 (amended): on every usage response, `CheckUsageLimitsWithStatus`
derives `Available` as the spec formula (base + active free trial +
bonuses, clamped at 0) of the first `CREDIT` breakdown, while
`TokenWithUsage.GetAvailableCount` derives the same formula without the
bonus term; both are 0 when no `CREDIT` breakdown exists or the limits
are absent. -/
theorem available_formula_amended (bs : List UsageBreakdown) :
    (∀ b, firstCredit bs = some b →
        (checkerTotals bs).available = specAvailable b ∧
        GetAvailableCount (some { usageBreakdownList := bs }) = specAvailableNoBonuses b) ∧
    (firstCredit bs = none →
        (checkerTotals bs).available = 0 ∧
        GetAvailableCount (some { usageBreakdownList := bs }) = 0) ∧
    GetAvailableCount none = 0 := by
  induction bs with
  | nil =>
      exact ⟨fun b hb => by simp [firstCredit] at hb, fun _ => ⟨rfl, rfl⟩, rfl⟩
  | cons hd tl ih =>
      by_cases hcr : hd.resourceType == "CREDIT"
      · refine ⟨fun b hb => ?_, fun hb => ?_, rfl⟩
        · simp only [firstCredit, hcr, if_true, Option.some.injEq] at hb
          subst hb
          exact ⟨by simp [checkerTotals, hcr, creditTotals_available_eq_spec],
            by simp [GetAvailableCount, GetAvailableCount.go, hcr,
              creditAvailableCount_eq_spec]⟩
        · simp [firstCredit, hcr] at hb
      · refine ⟨fun b hb => ?_, fun hb => ?_, rfl⟩
        · simp only [firstCredit, hcr, if_false] at hb
          have h := (ih.1) b hb
          exact ⟨by simpa [checkerTotals, hcr] using h.1,
            by simpa [GetAvailableCount, GetAvailableCount.go, hcr] using h.2⟩
        · simp only [firstCredit, hcr, if_false] at hb
          have h := (ih.2.1) hb
          exact ⟨by simpa [checkerTotals, hcr] using h.1,
            by simpa [GetAvailableCount, GetAvailableCount.go, hcr] using h.2⟩

/-- A concrete usage response carrying base quota, active free trial and
one bonus, used to instantiate `available_formula_amended`. -/
def richBreakdown : UsageBreakdown :=
  { resourceType := "CREDIT"
    usageLimitWithPrecision := 10
    currentUsageWithPrecision := 3
    freeTrialInfo := some { freeTrialStatus := "ACTIVE"
                            usageLimitWithPrecision := 4
                            currentUsageWithPrecision := 1 }
    bonuses := [{ usageLimit := 5, currentUsage := 2 }] }

/-- Witness for `available_formula_amended`: instantiated at a response
carrying a base quota, an active free trial, and one bonus. -/
theorem available_formula_amended_witness :
    (checkerTotals [richBreakdown]).available = 13 ∧
    GetAvailableCount (some { usageBreakdownList := [richBreakdown] }) = 10 := by
  have h := (available_formula_amended [richBreakdown]).1 richBreakdown
      (by simp [firstCredit, richBreakdown])
  refine ⟨?_, ?_⟩
  · rw [h.1]
    norm_num [specAvailable, richBreakdown]
  · rw [h.2]
    norm_num [specAvailableNoBonuses, richBreakdown]

/-! ## Probe-outcome classification (`CheckUsageLimitsWithStatus`) -/

/-- The account statuses `CheckUsageLimitsWithStatus` can assign
(`types.AccountStatus*` constants). -/
inductive CheckStatus
  | active
  | exhausted
  | banned
  | error
  deriving Repr, DecidableEq

/-- The observable outcome of the usage probe's HTTP exchange:
either the request/transport/body-read failed, or a response arrived with
a status code, the string `reason` field obtained when the body parses as
a JSON object carrying one (`SafeUnmarshal` into `map[string]any`), and
the breakdown list obtained when the body parses as `types.UsageLimits`. -/
inductive ProbeOutcome
  | transportFailure
  | response (statusCode : Nat) (reasonField : Option String)
      (parsedLimits : Option (List UsageBreakdown))
  deriving Repr, DecidableEq

/-- The classification fields of `auth.UsageCheckResult`. -/
structure CheckResult where
  status : CheckStatus
  banReason : String
  totals : UsageCheckTotals
  errored : Bool
  deriving Repr, DecidableEq

/-- Embeds `CheckUsageLimitsWithStatus` (lines 39–155): status starts at
`error`; transport/read failures return it unchanged; a non-200 response
whose body carries a string `reason` is `banned` with that reason, any
other non-200 is `error`; a 200 body that fails to parse is `error`; a
parsed 200 body gets the `CREDIT` totals and is `active` iff the computed
available is positive, else `exhausted`. -/
def CheckUsageLimitsWithStatus : ProbeOutcome → CheckResult
  | .transportFailure =>
      { status := .error, banReason := "", totals := ⟨0, 0, 0⟩, errored := true }
  | .response code reasonField parsedLimits =>
      if code ≠ 200 then
        match reasonField with
        | some r =>
            { status := .banned, banReason := r, totals := ⟨0, 0, 0⟩, errored := true }
        | none =>
            { status := .error, banReason := "", totals := ⟨0, 0, 0⟩, errored := true }
      else
        match parsedLimits with
        | none =>
            { status := .error, banReason := "", totals := ⟨0, 0, 0⟩, errored := true }
        | some bs =>
            let t := checkerTotals bs
            { status := if t.available > 0 then .active else .exhausted
              banReason := ""
              totals := t
              errored := false }

/-- C4: every probe outcome is classified as the claim states — non-200
with a string `reason` is `banned` carrying that reason; other non-200,
transport failure, or parse failure is `error`; a parsed 200 response is
`exhausted` iff the computed available is ≤ 0 and `active` iff it is
positive. -/
theorem checker_status_classification :
    (∀ code rf pl r, rf = some r → code ≠ 200 →
        (CheckUsageLimitsWithStatus (.response code rf pl)).status = .banned ∧
        (CheckUsageLimitsWithStatus (.response code rf pl)).banReason = r) ∧
    (∀ code pl, code ≠ 200 →
        (CheckUsageLimitsWithStatus (.response code none pl)).status = .error) ∧
    (CheckUsageLimitsWithStatus .transportFailure).status = .error ∧
    (∀ rf, (CheckUsageLimitsWithStatus (.response 200 rf none)).status = .error) ∧
    (∀ rf bs,
        ((CheckUsageLimitsWithStatus (.response 200 rf (some bs))).status = .exhausted
          ↔ (checkerTotals bs).available ≤ 0) ∧
        ((CheckUsageLimitsWithStatus (.response 200 rf (some bs))).status = .active
          ↔ 0 < (checkerTotals bs).available)) := by
  refine ⟨?_, ?_, rfl, ?_, ?_⟩
  · rintro code rf pl r rfl hcode
    simp [CheckUsageLimitsWithStatus, hcode]
  · intro code pl hcode
    simp [CheckUsageLimitsWithStatus, hcode]
  · intro rf
    simp [CheckUsageLimitsWithStatus]
  · intro rf bs
    by_cases h : 0 < (checkerTotals bs).available
    · simp [CheckUsageLimitsWithStatus, h, not_le.mpr h]
    · simp [CheckUsageLimitsWithStatus, h, not_lt.mp h]

/-- Witness for `checker_status_classification`: a banned 403, an error
500, and an active 200 carrying the rich breakdown. -/
theorem checker_status_classification_witness :
    (CheckUsageLimitsWithStatus (.response 403 (some "TOS_VIOLATION") none)).status
        = .banned ∧
    (CheckUsageLimitsWithStatus (.response 403 (some "TOS_VIOLATION") none)).banReason
        = "TOS_VIOLATION" ∧
    (CheckUsageLimitsWithStatus (.response 500 none none)).status = .error ∧
    (CheckUsageLimitsWithStatus (.response 200 none (some [richBreakdown]))).status
        = .active := by
  have h := checker_status_classification
  refine ⟨(h.1 403 _ none "TOS_VIOLATION" rfl (by decide)).1,
    (h.1 403 _ none "TOS_VIOLATION" rfl (by decide)).2,
    h.2.1 500 none (by decide), ?_⟩
  exact ((h.2.2.2.2 none [richBreakdown]).2).mpr
    (by norm_num [checkerTotals, creditTotals, richBreakdown])

/-! ## Stop-reason policy

The `StopReasonManager` used at `handleNonStreamRequest` lines 748–783 is
not among the provided sources; the policy is modelled from the spec. -/

/-- Modelled from the spec: the `DetermineStopReason` policy of the
`StopReasonManager` (absent from the provided sources; §4.8 rule 5 of the
spec): inputs `sawToolUse`, `toolsWereRequested`, `hitMaxTokens`,
`stopSequenceMatched`, decided with priority
`tool_use` (sawToolUse ∧ toolsWereRequested) > `max_tokens` >
`stop_sequence` > `end_turn`. -/
def DetermineStopReason (sawToolUse toolsWereRequested hitMaxTokens
    stopSequenceMatched : Bool) : String :=
  if sawToolUse && toolsWereRequested then "tool_use"
  else if hitMaxTokens then "max_tokens"
  else if stopSequenceMatched then "stop_sequence"
  else "end_turn"

/-- C2: whenever a tool-use block was produced and the request declared
tools, the policy yields `tool_use`, overriding every other input; and in
the remaining cases the priority is `max_tokens` > `stop_sequence` >
`end_turn`. -/
theorem stop_reason_priority (saw tools maxTok stopSeq : Bool) :
    (saw = true → tools = true →
        DetermineStopReason saw tools maxTok stopSeq = "tool_use") ∧
    ((saw && tools) = false → maxTok = true →
        DetermineStopReason saw tools maxTok stopSeq = "max_tokens") ∧
    ((saw && tools) = false → maxTok = false → stopSeq = true →
        DetermineStopReason saw tools maxTok stopSeq = "stop_sequence") ∧
    ((saw && tools) = false → maxTok = false → stopSeq = false →
        DetermineStopReason saw tools maxTok stopSeq = "end_turn") := by
  refine ⟨?_, ?_, ?_, ?_⟩
  · rintro rfl rfl
    simp [DetermineStopReason]
  · intro h hm
    simp [DetermineStopReason, h, hm]
  · intro h hm hs
    simp [DetermineStopReason, h, hm, hs]
  · intro h hm hs
    simp [DetermineStopReason, h, hm, hs]

/-- Witness for `stop_reason_priority`: a response that produced a tool
call while the request declared tools, even at the token limit, stops
with `tool_use`. -/
theorem stop_reason_priority_witness :
    DetermineStopReason true true true true = "tool_use" :=
  (stop_reason_priority true true true true).1 rfl rfl

/-! ## Credential records and runtime filtering (`auth`, src/unnamed/part_000) -/

/-- Embeds `auth.AuthConfig`. -/
structure AuthConfig where
  authType : String
  refreshToken : String
  clientID : String
  clientSecret : String
  disabled : Bool
  deriving Repr, DecidableEq

/-- `auth.AuthMethodSocial`. -/
def AuthMethodSocial : String := "Social"

/-- `auth.AuthMethodIdC`. -/
def AuthMethodIdC : String := "IdC"

/-- Embeds the defaulting assignment of `processConfigs` (part_000 lines
152–155): an empty auth type becomes `Social`. -/
def defaultAuthType (c : AuthConfig) : AuthConfig :=
  if c.authType == "" then { c with authType := AuthMethodSocial } else c

/-- Embeds `processConfigs` (part_000 lines 142–174): skip records with an
empty refresh token; default an empty auth type to `Social`; skip `IdC`
records missing client id or secret; skip disabled records; keep the rest
in order. -/
def processConfigs : List AuthConfig → List AuthConfig
  | [] => []
  | c :: rest =>
      if c.refreshToken == "" then processConfigs rest
      else if (defaultAuthType c).authType == AuthMethodIdC
          && ((defaultAuthType c).clientID == "" || (defaultAuthType c).clientSecret == "") then
        processConfigs rest
      else if (defaultAuthType c).disabled then
        processConfigs rest
      else
        defaultAuthType c :: processConfigs rest

/-- The claim's runtime-keep predicate, evaluated after defaulting:
non-empty refresh token, not disabled, and `IdC` only with both client
credentials. -/
def keepForRuntime (c : AuthConfig) : Bool :=
  c.refreshToken != "" && !c.disabled &&
    !(c.authType == AuthMethodIdC && (c.clientID == "" || c.clientSecret == ""))

/-- Defaulting does not touch the refresh token. -/
theorem defaultAuthType_refreshToken (c : AuthConfig) :
    (defaultAuthType c).refreshToken = c.refreshToken := by
  unfold defaultAuthType
  split <;> rfl

/-- Defaulting does not touch the disabled flag. -/
theorem defaultAuthType_disabled (c : AuthConfig) :
    (defaultAuthType c).disabled = c.disabled := by
  unfold defaultAuthType
  split <;> rfl

/-- One step of the loop keeps exactly the defaulted records passing the
runtime predicate. -/
theorem processConfigs_cons (c : AuthConfig) (rest : List AuthConfig) :
    processConfigs (c :: rest) =
      if keepForRuntime (defaultAuthType c) then
        defaultAuthType c :: processConfigs rest
      else processConfigs rest := by
  cases hrt : c.refreshToken == "" with
  | true =>
      simp [processConfigs, hrt, keepForRuntime, defaultAuthType_refreshToken, bne]
  | false =>
      cases hidc : (defaultAuthType c).authType == AuthMethodIdC
          && ((defaultAuthType c).clientID == "" || (defaultAuthType c).clientSecret == "") with
      | true =>
          simp [processConfigs, hrt, hidc, keepForRuntime]
      | false =>
          cases hdis : (defaultAuthType c).disabled with
          | true =>
              simp [processConfigs, hrt, hidc, hdis, keepForRuntime,
                defaultAuthType_refreshToken, defaultAuthType_disabled]
          | false =>
              simp [processConfigs, hrt, hidc, hdis, keepForRuntime,
                defaultAuthType_refreshToken, defaultAuthType_disabled, bne]

/-- C7: loading credentials for runtime use filters out exactly the
records with an empty refresh token, the `IdC` records lacking a client
id or secret, and the disabled records, and keeps every other record —
with an empty auth type defaulted to `Social` — in its original order. -/
theorem processConfigs_eq_filtered (cs : List AuthConfig) :
    processConfigs cs = (cs.map defaultAuthType).filter keepForRuntime := by
  induction cs with
  | nil => rfl
  | cons c rest ih =>
      rw [processConfigs_cons, List.map_cons, List.filter_cons, ih]

/-! ## Config store CRUD (`server/config_handler.go` lines 82–133) -/

/-- The errors the CRUD operations return: `os.ErrNotExist` on a bad
index, or the error of a failed `save`. -/
inductive StoreError
  | notExist
  | saveFailed
  deriving Repr, DecidableEq

/-- The store's in-memory list together with the last successfully
written file contents. -/
structure ConfigStore where
  mem : List AuthConfig
  disk : List AuthConfig
  deriving Repr, DecidableEq

/-- Embeds `ConfigStore.save` (lines 82–88): on success the file holds
the serialized in-memory list; on a write failure the file keeps its
previous contents and the error is returned. -/
def ConfigStore.save (s : ConfigStore) (saveFails : Bool) :
    ConfigStore × Option StoreError :=
  if saveFails then (s, some .saveFailed) else ({ s with disk := s.mem }, none)

/-- Embeds `ConfigStore.AddConfig` (lines 100–107): append, then save. -/
def ConfigStore.addConfig (s : ConfigStore) (c : AuthConfig) (saveFails : Bool) :
    ConfigStore × Option StoreError :=
  ConfigStore.save { s with mem := s.mem ++ [c] } saveFails

/-- Embeds `ConfigStore.UpdateConfig` (lines 109–120): bounds check, then
overwrite in place, then save. -/
def ConfigStore.updateConfig (s : ConfigStore) (index : Int) (c : AuthConfig)
    (saveFails : Bool) : ConfigStore × Option StoreError :=
  if index < 0 ∨ (s.mem.length : Int) ≤ index then (s, some .notExist)
  else ConfigStore.save { s with mem := s.mem.set index.toNat c } saveFails

/-- Embeds `ConfigStore.DeleteConfig` (lines 122–133): bounds check, then
splice the element out, then save. -/
def ConfigStore.deleteConfig (s : ConfigStore) (index : Int) (saveFails : Bool) :
    ConfigStore × Option StoreError :=
  if index < 0 ∨ (s.mem.length : Int) ≤ index then (s, some .notExist)
  else ConfigStore.save { s with mem := s.mem.eraseIdx index.toNat } saveFails

/-- A valid stored credential record used in concrete instances. -/
def sampleConfig : AuthConfig :=
  { authType := "Social", refreshToken := "rt-1", clientID := "", clientSecret := ""
    disabled := false }

/-- A second, distinct credential record. -/
def otherConfig : AuthConfig :=
  { authType := "Social", refreshToken := "rt-2", clientID := "", clientSecret := ""
    disabled := false }

/-- C9 counterexample: a failed save during `UpdateConfig` that rewrote an
identical record returns the error, yet memory and disk still agree —
so "after a failed save the in-memory list and the on-disk file diverge"
does not hold universally. -/
theorem updateConfig_idempotent_no_divergence :
    (ConfigStore.updateConfig ⟨[sampleConfig], [sampleConfig]⟩ 0 sampleConfig true).2
        = some .saveFailed ∧
    (ConfigStore.updateConfig ⟨[sampleConfig], [sampleConfig]⟩ 0 sampleConfig true).1.mem
        = (ConfigStore.updateConfig ⟨[sampleConfig], [sampleConfig]⟩ 0
            sampleConfig true).1.disk := by
  decide

/-- C9 (amended): when the disk write fails, each CRUD method returns the
error while the in-memory list keeps the already-applied mutation and the
file keeps its old contents; starting from a synchronized store the two
then diverge for `AddConfig` always, for `DeleteConfig` at any valid
index, and for `UpdateConfig` whenever the new record differs from the
one it replaced. -/
theorem crud_failed_save_not_rolled_back (s : ConfigStore) (c : AuthConfig) (i : Int) :
    ((ConfigStore.addConfig s c true).2 = some .saveFailed ∧
      (ConfigStore.addConfig s c true).1.mem = s.mem ++ [c] ∧
      (ConfigStore.addConfig s c true).1.disk = s.disk ∧
      (s.disk = s.mem →
        (ConfigStore.addConfig s c true).1.mem ≠ (ConfigStore.addConfig s c true).1.disk)) ∧
    (0 ≤ i → i < (s.mem.length : Int) →
      (ConfigStore.updateConfig s i c true).2 = some .saveFailed ∧
      (ConfigStore.updateConfig s i c true).1.mem = s.mem.set i.toNat c ∧
      (ConfigStore.updateConfig s i c true).1.disk = s.disk ∧
      (s.disk = s.mem → s.mem[i.toNat]? ≠ some c →
        (ConfigStore.updateConfig s i c true).1.mem
          ≠ (ConfigStore.updateConfig s i c true).1.disk)) ∧
    (0 ≤ i → i < (s.mem.length : Int) →
      (ConfigStore.deleteConfig s i true).2 = some .saveFailed ∧
      (ConfigStore.deleteConfig s i true).1.mem = s.mem.eraseIdx i.toNat ∧
      (ConfigStore.deleteConfig s i true).1.disk = s.disk ∧
      (s.disk = s.mem →
        (ConfigStore.deleteConfig s i true).1.mem
          ≠ (ConfigStore.deleteConfig s i true).1.disk)) := by
  refine ⟨⟨rfl, rfl, rfl, ?_⟩, fun h0 hlen => ⟨?_, ?_, ?_, ?_⟩, fun h0 hlen => ⟨?_, ?_, ?_, ?_⟩⟩
  · intro hsync heq
    simp only [ConfigStore.addConfig, ConfigStore.save, if_true] at heq
    rw [hsync] at heq
    have := congrArg List.length heq
    simp at this
  · simp only [ConfigStore.updateConfig, ConfigStore.save,
      if_neg (by omega : ¬(i < 0 ∨ (s.mem.length : Int) ≤ i)), if_true]
  · simp only [ConfigStore.updateConfig, ConfigStore.save,
      if_neg (by omega : ¬(i < 0 ∨ (s.mem.length : Int) ≤ i)), if_true]
  · simp only [ConfigStore.updateConfig, ConfigStore.save,
      if_neg (by omega : ¬(i < 0 ∨ (s.mem.length : Int) ≤ i)), if_true]
  · intro hsync hne heq
    simp only [ConfigStore.updateConfig, ConfigStore.save,
      if_neg (by omega : ¬(i < 0 ∨ (s.mem.length : Int) ≤ i)), if_true] at heq
    rw [hsync] at heq
    have hidx : i.toNat < s.mem.length := by omega
    have hset : (s.mem.set i.toNat c)[i.toNat]? = some c :=
      List.getElem?_set_eq_of_lt c hidx
    rw [heq] at hset
    exact hne hset
  · simp only [ConfigStore.deleteConfig, ConfigStore.save,
      if_neg (by omega : ¬(i < 0 ∨ (s.mem.length : Int) ≤ i)), if_true]
  · simp only [ConfigStore.deleteConfig, ConfigStore.save,
      if_neg (by omega : ¬(i < 0 ∨ (s.mem.length : Int) ≤ i)), if_true]
  · simp only [ConfigStore.deleteConfig, ConfigStore.save,
      if_neg (by omega : ¬(i < 0 ∨ (s.mem.length : Int) ≤ i)), if_true]
  · intro hsync heq
    simp only [ConfigStore.deleteConfig, ConfigStore.save,
      if_neg (by omega : ¬(i < 0 ∨ (s.mem.length : Int) ≤ i)), if_true] at heq
    rw [hsync] at heq
    have hidx : i.toNat < s.mem.length := by omega
    have hlen := congrArg List.length heq
    rw [List.length_eraseIdx] at hlen
    simp only [hidx, if_true] at hlen
    omega

/-- Witness for `crud_failed_save_not_rolled_back`: a one-record store
with a failed save at a valid index and a genuinely different record. -/
theorem crud_failed_save_not_rolled_back_witness :
    (ConfigStore.addConfig ⟨[sampleConfig], [sampleConfig]⟩ otherConfig true).1.mem
        ≠ (ConfigStore.addConfig ⟨[sampleConfig], [sampleConfig]⟩ otherConfig true).1.disk ∧
    (ConfigStore.updateConfig ⟨[sampleConfig], [sampleConfig]⟩ 0 otherConfig true).1.mem
        ≠ (ConfigStore.updateConfig ⟨[sampleConfig], [sampleConfig]⟩ 0 otherConfig true).1.disk ∧
    (ConfigStore.deleteConfig ⟨[sampleConfig], [sampleConfig]⟩ 0 true).1.mem
        ≠ (ConfigStore.deleteConfig ⟨[sampleConfig], [sampleConfig]⟩ 0 true).1.disk := by
  have h := crud_failed_save_not_rolled_back ⟨[sampleConfig], [sampleConfig]⟩ otherConfig 0
  exact ⟨h.1.2.2.2 rfl,
    (h.2.1 (by decide) (by decide)).2.2.2 rfl (by decide),
    (h.2.2 (by decide) (by decide)).2.2.2 rfl⟩

/-! ## Generic JSON values and the `/v1/messages` tool normalization
(src/unnamed/part_001 lines 98–148) -/

/-- A generic JSON value, the shape of `any` after `SafeUnmarshal`;
objects are association lists standing for Go's unordered
`map[string]any`. -/
inductive Json
  | null
  | bool (b : Bool)
  | num (q : ℚ)
  | str (s : String)
  | arr (elems : List Json)
  | obj (fields : List (String × Json))

/-- Key lookup in a parsed JSON object (`toolMap["name"]` etc.). -/
def lookupField : List (String × Json) → String → Option Json
  | [], _ => none
  | (k, v) :: rest, key => if k == key then some v else lookupField rest key

/-- Embeds one iteration of the tool-normalization loop (part_001 lines
110–129): an entry that is a JSON object carrying `name`, `description`
and `input_schema` is rewritten to the canonical three-field Anthropic
tool object; any other object is appended unchanged; an entry that is
not an object is not appended at all. -/
def normalizeOneTool (tool : Json) : Option Json :=
  match tool with
  | .obj fields =>
      match lookupField fields "name", lookupField fields "description",
          lookupField fields "input_schema" with
      | some n, some d, some s =>
          some (.obj [("name", n), ("description", d), ("input_schema", s)])
      | _, _, _ => some (.obj fields)
  | _ => none

/-- Embeds the whole normalization loop over the `tools` array. -/
def normalizeTools (tools : List Json) : List Json :=
  tools.filterMap normalizeOneTool

/-- C6 counterexample: a `tools` entry that is not a JSON object (here
the string `"x"`) is silently dropped by the normalization loop, not
passed through unchanged. -/
theorem normalizeTools_drops_nonobject :
    normalizeTools [Json.str "x"] = [] ∧ [Json.str "x"] ≠ ([] : List Json) :=
  ⟨rfl, by simp⟩

/-- C6 (amended): on a `tools` array whose entries are all canonical
Anthropic tool objects — objects with exactly the fields `name`,
`description`, `input_schema` — normalization is the identity. -/
theorem normalizeTools_id_on_canonical (ts : List Json)
    (h : ∀ t ∈ ts, ∃ n d s,
      t = Json.obj [("name", n), ("description", d), ("input_schema", s)]) :
    normalizeTools ts = ts := by
  induction ts with
  | nil => rfl
  | cons t rest ih =>
      obtain ⟨n, d, s, rfl⟩ := h t (List.mem_cons_self _ _)
      have hrest := ih (fun t ht => h t (List.mem_cons_of_mem _ ht))
      have hstep : normalizeOneTool
          (Json.obj [("name", n), ("description", d), ("input_schema", s)])
          = some (Json.obj [("name", n), ("description", d), ("input_schema", s)]) := rfl
      simp only [normalizeTools, List.filterMap_cons, hstep] at hrest ⊢
      rw [hrest]

/-- A concrete canonical tool declaration. -/
def weatherTool : Json :=
  Json.obj [("name", Json.str "get_weather"),
    ("description", Json.str "look up the weather"),
    ("input_schema", Json.obj [("type", Json.str "object")])]

/-- Witness for `normalizeTools_id_on_canonical`: a one-tool canonical
array is returned unchanged. -/
theorem normalizeTools_id_on_canonical_witness :
    normalizeTools [weatherTool] = [weatherTool] :=
  normalizeTools_id_on_canonical [weatherTool]
    (by
      intro t ht
      rw [List.mem_singleton] at ht
      exact ⟨Json.str "get_weather", Json.str "look up the weather",
        Json.obj [("type", Json.str "object")], by rw [ht]; rfl⟩)

/-! ## `/v1/messages` request validation (src/unnamed/part_001 lines
150–183) -/

/-- A parsed Anthropic message as the validation sees it: the outcome of
`utils.GetMessageContent` on its content — `none` when extraction
fails, otherwise the text payload. -/
structure AnthropicMessage where
  content : Option (List Char)

/-- Go's `strings.TrimSpace`: drop whitespace from both ends. -/
def trimSpace (s : List Char) : List Char :=
  ((s.dropWhile Char.isWhitespace).reverse.dropWhile Char.isWhitespace).reverse

/-- The sentinel placeholder the handler rejects. -/
def placeholderSentinel : List Char := "answer for user question".toList

/-- What the `/v1/messages` handler does after parsing, before any
upstream call. -/
inductive HandlerOutcome
  | badRequest
  | streamed
  | nonStreamed
  deriving Repr, DecidableEq

/-- Embeds the validation and dispatch of the `/v1/messages` handler
(part_001 lines 150–183): reject with 400 when `messages` is empty, when
extracting the final message's content fails, or when the trimmed
payload is empty or the placeholder; otherwise dispatch to the streaming
or non-streaming path — the only places the upstream generation endpoint
is called. -/
def messagesDispatch (messages : List AnthropicMessage) (stream : Bool) :
    HandlerOutcome :=
  match messages.getLast? with
  | none => .badRequest
  | some lastMsg =>
      match lastMsg.content with
      | none => .badRequest
      | some content =>
          let trimmed := trimSpace content
          if trimmed = [] ∨ trimmed = placeholderSentinel then .badRequest
          else if stream then .streamed else .nonStreamed

/-- C5: the handler answers 400 — and so never reaches the upstream
dispatch — whenever the messages array is empty, or the final message's
payload trims to the empty string, or it trims to the sentinel
placeholder. -/
theorem messages_validation_rejects (messages : List AnthropicMessage)
    (stream : Bool) :
    (messages = [] → messagesDispatch messages stream = .badRequest) ∧
    (∀ m c, messages.getLast? = some m → m.content = some c →
      trimSpace c = [] ∨ trimSpace c = placeholderSentinel →
      messagesDispatch messages stream = .badRequest) := by
  constructor
  · rintro rfl
    rfl
  · intro m c hlast hc hbad
    unfold messagesDispatch
    simp only [hlast, hc]
    rw [if_pos hbad]

/-- Witness for `messages_validation_rejects`: the empty messages array,
and a final message whose payload is whitespace around the sentinel. -/
theorem messages_validation_rejects_witness :
    messagesDispatch [] true = .badRequest ∧
    messagesDispatch [⟨some "  answer for user question ".toList⟩] false
      = .badRequest := by
  constructor
  · exact (messages_validation_rejects [] true).1 rfl
  · exact (messages_validation_rejects
      [⟨some "  answer for user question ".toList⟩] false).2
      ⟨some "  answer for user question ".toList⟩ "  answer for user question ".toList
      rfl rfl (Or.inr (by decide))

/-! ## Non-streaming response assembly
(`server/config_handler.go` lines 586–816)

The token estimator (`utils.TokenEstimator`) and the tool filter
(`filterSupportedTools`) live outside the provided sources; the handler is
embedded parametrically in them, so everything proved holds for every
estimator. -/

/-- A tool reconstructed by the parser, as the handler consumes it:
`Arguments` is `nil` or a JSON object. -/
structure ToolExecution where
  id : String
  name : String
  arguments : Option (List (String × Json))

/-- A content block of the aggregated Anthropic response. -/
inductive ContentBlock
  | text (text : String)
  | toolUse (id : String) (name : String) (input : List (String × Json))

/-- The fields the estimator's input `types.CountTokensRequest` carries. -/
structure CountTokensRequest where
  model : String
  system : Json
  messages : Json
  tools : List Json

/-- The `usage` object of the aggregated response. -/
structure MessagesUsage where
  input_tokens : Int
  output_tokens : Int

/-- The aggregated non-streaming Anthropic response (the fields under
proof). -/
structure NonStreamResponse where
  content : List ContentBlock
  stop_reason : String
  usage : MessagesUsage

/-- Embeds the `contexts` assembly (lines 669–746): the aggregated text
when non-empty, then one `tool_use` block per tool, with `nil` arguments
replaced by the empty object. -/
def buildContexts (textAgg : String) (allTools : List ToolExecution) :
    List ContentBlock :=
  (if textAgg ≠ "" then [ContentBlock.text textAgg] else []) ++
    allTools.map (fun t => ContentBlock.toolUse t.id t.name (t.arguments.getD []))

/-- The per-block estimator application of the output-token loop (lines
757–775): `EstimateTextTokens` on text blocks, `EstimateToolUseTokens` on
the name and input of tool blocks. -/
def blockTokenSum (estText : String → Int)
    (estTool : String → List (String × Json) → Int)
    (contexts : List ContentBlock) : Int :=
  (contexts.map (fun b =>
    match b with
    | .text t => estText t
    | .toolUse _ n inp => estTool n inp)).sum

/-- Embeds the output-token computation with its minimum-token guard
(lines 757–780). -/
def computeOutputTokens (estText : String → Int)
    (estTool : String → List (String × Json) → Int)
    (contexts : List ContentBlock) : Int :=
  let outputTokens := blockTokenSum estText estTool contexts
  if outputTokens < 1 ∧ contexts.length > 0 then 1 else outputTokens

/-- Embeds `handleNonStreamRequest`'s response assembly (lines 586–595
and 748–815): input tokens are the estimator on the request with the
unsupported tools filtered out, output tokens come from the delivered
blocks, and the stop reason comes from the policy fed
`(sawToolUse, sawToolUse)` as at line 782. -/
def handleNonStreamRequest
    (estimateTokens : CountTokensRequest → Int)
    (estText : String → Int)
    (estTool : String → List (String × Json) → Int)
    (filterSupportedTools : List Json → List Json)
    (req : CountTokensRequest)
    (textAgg : String) (allTools : List ToolExecution)
    (hitMaxTokens stopSequenceMatched : Bool) : NonStreamResponse :=
  let inputTokens := estimateTokens { req with tools := filterSupportedTools req.tools }
  let contexts := buildContexts textAgg allTools
  let sawToolUse := decide (allTools.length > 0)
  { content := contexts
    stop_reason := DetermineStopReason sawToolUse sawToolUse hitMaxTokens
      stopSequenceMatched
    usage := { input_tokens := inputTokens
               output_tokens := computeOutputTokens estText estTool contexts } }

/-- C3: in every non-streaming response, `output_tokens` is the
per-block estimator sum over exactly the content delivered to the client
(and equals that sum whenever it is ≥ 1), is clamped to ≥ 1 whenever at
least one block was produced, and `input_tokens` is the estimator
applied to the request with unsupported tools filtered — all for every
estimator. -/
theorem nonstream_token_accounting
    (estimateTokens : CountTokensRequest → Int)
    (estText : String → Int)
    (estTool : String → List (String × Json) → Int)
    (filterSupportedTools : List Json → List Json)
    (req : CountTokensRequest)
    (textAgg : String) (allTools : List ToolExecution)
    (hitMaxTokens stopSequenceMatched : Bool) :
    (handleNonStreamRequest estimateTokens estText estTool filterSupportedTools
        req textAgg allTools hitMaxTokens stopSequenceMatched).usage.output_tokens
      = computeOutputTokens estText estTool
          (handleNonStreamRequest estimateTokens estText estTool filterSupportedTools
            req textAgg allTools hitMaxTokens stopSequenceMatched).content ∧
    ((handleNonStreamRequest estimateTokens estText estTool filterSupportedTools
        req textAgg allTools hitMaxTokens stopSequenceMatched).content ≠ [] →
      1 ≤ (handleNonStreamRequest estimateTokens estText estTool filterSupportedTools
        req textAgg allTools hitMaxTokens stopSequenceMatched).usage.output_tokens) ∧
    (1 ≤ blockTokenSum estText estTool (buildContexts textAgg allTools) →
      (handleNonStreamRequest estimateTokens estText estTool filterSupportedTools
        req textAgg allTools hitMaxTokens stopSequenceMatched).usage.output_tokens
        = blockTokenSum estText estTool (buildContexts textAgg allTools)) ∧
    (handleNonStreamRequest estimateTokens estText estTool filterSupportedTools
        req textAgg allTools hitMaxTokens stopSequenceMatched).usage.input_tokens
      = estimateTokens { req with tools := filterSupportedTools req.tools } := by
  refine ⟨rfl, ?_, ?_, rfl⟩
  · intro hne
    show 1 ≤ computeOutputTokens estText estTool (buildContexts textAgg allTools)
    unfold computeOutputTokens
    have hlen : (buildContexts textAgg allTools).length > 0 := by
      cases hctx : buildContexts textAgg allTools with
      | nil => exact absurd hctx hne
      | cons a l => simp
    by_cases hsum : blockTokenSum estText estTool (buildContexts textAgg allTools) < 1
    · rw [if_pos ⟨hsum, hlen⟩]
    · rw [if_neg (fun h => hsum h.1)]
      omega
  · intro hge
    show computeOutputTokens estText estTool (buildContexts textAgg allTools) = _
    unfold computeOutputTokens
    rw [if_neg (fun h => absurd h.1 (not_lt.mpr hge))]

/-- Witness for `nonstream_token_accounting`: a character-count
estimator on a response carrying one text block and one tool block. -/
theorem nonstream_token_accounting_witness :
    (handleNonStreamRequest
        (fun r => (r.model.length : Int)) (fun t => (t.length : Int))
        (fun n _ => (n.length : Int)) id
        { model := "claude-3-5-sonnet", system := Json.null,
          messages := Json.null, tools := [] }
        "hello" [{ id := "T1", name := "get_weather", arguments := none }]
        false false).content ≠ [] ∧
    1 ≤ blockTokenSum (fun t => (t.length : Int)) (fun n _ => (n.length : Int))
        (buildContexts "hello"
          [{ id := "T1", name := "get_weather", arguments := none }]) ∧
    1 ≤ (handleNonStreamRequest
        (fun r => (r.model.length : Int)) (fun t => (t.length : Int))
        (fun n _ => (n.length : Int)) id
        { model := "claude-3-5-sonnet", system := Json.null,
          messages := Json.null, tools := [] }
        "hello" [{ id := "T1", name := "get_weather", arguments := none }]
        false false).usage.output_tokens ∧
    (handleNonStreamRequest
        (fun r => (r.model.length : Int)) (fun t => (t.length : Int))
        (fun n _ => (n.length : Int)) id
        { model := "claude-3-5-sonnet", system := Json.null,
          messages := Json.null, tools := [] }
        "hello" [{ id := "T1", name := "get_weather", arguments := none }]
        false false).usage.output_tokens
      = blockTokenSum (fun t => (t.length : Int)) (fun n _ => (n.length : Int))
          (buildContexts "hello"
            [{ id := "T1", name := "get_weather", arguments := none }]) := by
  have h := nonstream_token_accounting
      (fun r => (r.model.length : Int)) (fun t => (t.length : Int))
      (fun n _ => (n.length : Int)) id
      { model := "claude-3-5-sonnet", system := Json.null,
        messages := Json.null, tools := [] }
      "hello" [{ id := "T1", name := "get_weather", arguments := none }]
      false false
  have hne : (handleNonStreamRequest
      (fun r => (r.model.length : Int)) (fun t => (t.length : Int))
      (fun n _ => (n.length : Int)) id
      { model := "claude-3-5-sonnet", system := Json.null,
        messages := Json.null, tools := [] }
      "hello" [{ id := "T1", name := "get_weather", arguments := none }]
      false false).content ≠ [] := by
    intro hcontra
    exact absurd (congrArg List.length hcontra) (by decide)
  have hsum : (1 : Int) ≤ blockTokenSum (fun t => (t.length : Int))
      (fun n _ => (n.length : Int))
      (buildContexts "hello"
        [{ id := "T1", name := "get_weather", arguments := none }]) := by
    decide
  exact ⟨hne, hsum, h.2.1 hne, h.2.2.1 hsum⟩

/-! ## Email masking (`server/config_handler.go` lines 837–889)

Strings are `List Char`; `maskEmail`'s byte indexing coincides with
character indexing on ASCII input. -/

/-- Go's `strings.Split` with a one-character separator: `Split("", sep)`
is `[""]`, and separators at the ends produce empty fields. -/
def splitOnChar (sep : Char) : List Char → List (List Char)
  | [] => [[]]
  | x :: xs =>
      match splitOnChar sep xs with
      | [] => [[]]
      | h :: t => if x = sep then [] :: h :: t else (x :: h) :: t

/-- Go's `strings.Join` with a one-character separator. -/
def joinChar (sep : Char) : List (List Char) → List Char
  | [] => []
  | [p] => p
  | p :: rest => p ++ sep :: joinChar sep rest

/-- The cons-step of `splitOnChar`, expressed through the (always
cons-shaped) result of the recursive call. -/
theorem splitOnChar_cons_eq (sep x : Char) (xs : List Char)
    (a : List Char) (t : List (List Char)) (h : splitOnChar sep xs = a :: t) :
    splitOnChar sep (x :: xs) =
      if x = sep then [] :: a :: t else (x :: a) :: t := by
  unfold splitOnChar
  rw [h]

/-- `strings.Split` never returns an empty slice. -/
theorem splitOnChar_ne_nil (sep : Char) (l : List Char) :
    splitOnChar sep l ≠ [] := by
  induction l with
  | nil => simp [splitOnChar]
  | cons x xs ih =>
      cases h : splitOnChar sep xs with
      | nil => exact absurd h ih
      | cons a t =>
          rw [splitOnChar_cons_eq sep x xs a t h]
          by_cases hx : x = sep <;> simp [hx]

/-- A separator-free string splits into the single field it is. -/
theorem splitOnChar_of_not_mem (sep : Char) (xs : List Char)
    (h : sep ∉ xs) : splitOnChar sep xs = [xs] := by
  induction xs with
  | nil => rfl
  | cons x rest ih =>
      have hx : x ≠ sep := fun he => h (he ▸ List.mem_cons_self x rest)
      have hrest := ih (fun hm => h (List.mem_cons_of_mem x hm))
      rw [splitOnChar_cons_eq sep x rest rest [] hrest]
      simp [hx]

/-- Splitting peels off a separator-free prefix before a separator. -/
theorem splitOnChar_append (sep : Char) (xs ys : List Char)
    (h : sep ∉ xs) :
    splitOnChar sep (xs ++ sep :: ys) = xs :: splitOnChar sep ys := by
  induction xs with
  | nil =>
      cases hys : splitOnChar sep ys with
      | nil => exact absurd hys (splitOnChar_ne_nil sep ys)
      | cons a t =>
          show splitOnChar sep (sep :: ys) = [] :: a :: t
          rw [splitOnChar_cons_eq sep sep ys a t hys, if_pos rfl]
  | cons x rest ih =>
      have hx : x ≠ sep := fun he => h (he ▸ List.mem_cons_self x rest)
      have hrest := ih (fun hm => h (List.mem_cons_of_mem x hm))
      show splitOnChar sep (x :: (rest ++ sep :: ys)) = _
      rw [splitOnChar_cons_eq sep x _ rest (splitOnChar sep ys) hrest]
      simp [hx]

/-- Fields produced by a split never contain the separator. -/
theorem not_mem_of_mem_splitOnChar (sep : Char) (l : List Char)
    (p : List Char) (hp : p ∈ splitOnChar sep l) : sep ∉ p := by
  induction l generalizing p with
  | nil =>
      simp only [splitOnChar, List.mem_singleton] at hp
      subst hp
      exact List.not_mem_nil sep
  | cons x xs ih =>
      rcases hxs : splitOnChar sep xs with _ | ⟨a, t⟩
      · exact absurd hxs (splitOnChar_ne_nil sep xs)
      · rw [splitOnChar_cons_eq sep x xs a t hxs] at hp
        have hmem_a : a ∈ splitOnChar sep xs := by
          rw [hxs]; exact List.mem_cons_self a t
        by_cases hx : x = sep
        · rw [if_pos hx] at hp
          rcases List.mem_cons.mp hp with rfl | hp
          · exact List.not_mem_nil sep
          · exact ih p (by rw [hxs]; exact hp)
        · rw [if_neg hx] at hp
          rcases List.mem_cons.mp hp with rfl | hp
          · intro hmem
            rcases List.mem_cons.mp hmem with he | hmem
            · exact hx he.symm
            · exact ih a hmem_a hmem
          · exact ih p (by rw [hxs]; exact List.mem_cons_of_mem a hp)

/-- Every character of a split field comes from the split string. -/
theorem mem_of_mem_splitOnChar (sep : Char) (l : List Char)
    (p : List Char) (hp : p ∈ splitOnChar sep l) :
    ∀ a ∈ p, a ∈ l := by
  induction l generalizing p with
  | nil =>
      simp only [splitOnChar, List.mem_singleton] at hp
      subst hp
      intro a ha
      exact absurd ha (List.not_mem_nil a)
  | cons x xs ih =>
      rcases hxs : splitOnChar sep xs with _ | ⟨a, t⟩
      · exact absurd hxs (splitOnChar_ne_nil sep xs)
      · rw [splitOnChar_cons_eq sep x xs a t hxs] at hp
        have hmem_a : a ∈ splitOnChar sep xs := by
          rw [hxs]; exact List.mem_cons_self a t
        by_cases hx : x = sep
        · rw [if_pos hx] at hp
          intro b hb
          rcases List.mem_cons.mp hp with rfl | hp
          · exact absurd hb (List.not_mem_nil b)
          · exact List.mem_cons_of_mem x (ih p (by rw [hxs]; exact hp) b hb)
        · rw [if_neg hx] at hp
          intro b hb
          rcases List.mem_cons.mp hp with rfl | hp
          · rcases List.mem_cons.mp hb with rfl | hb
            · exact List.mem_cons_self b xs
            · exact List.mem_cons_of_mem x (ih a hmem_a b hb)
          · exact List.mem_cons_of_mem x
              (ih p (by rw [hxs]; exact List.mem_cons_of_mem a hp) b hb)

/-- Splitting inverts joining when every part is separator-free. -/
theorem splitOnChar_joinChar (sep : Char) (parts : List (List Char))
    (hne : parts ≠ []) (hfree : ∀ p ∈ parts, sep ∉ p) :
    splitOnChar sep (joinChar sep parts) = parts := by
  induction parts with
  | nil => exact absurd rfl hne
  | cons p rest ih =>
      cases rest with
      | nil =>
          show splitOnChar sep p = [p]
          exact splitOnChar_of_not_mem sep p (hfree p (List.mem_cons_self p []))
      | cons q rest' =>
          show splitOnChar sep (p ++ sep :: joinChar sep (q :: rest')) = _
          rw [splitOnChar_append sep p _ (hfree p (List.mem_cons_self _ _)),
            ih (by simp) (fun r hr => hfree r (List.mem_cons_of_mem p hr))]

/-- Embeds the username branch of `maskEmail` (lines 852–862): all stars
when ≤ 4 characters, otherwise first two and last two kept around a run
of stars. -/
def maskUsername (username : List Char) : List Char :=
  if username.length ≤ 4 then List.replicate username.length '*'
  else
    username.take 2 ++ List.replicate (username.length - 4) '*'
      ++ username.drop (username.length - 2)

/-- Embeds the domain branch of `maskEmail` (lines 864–886): one label —
all stars; two labels — star the first, keep the TLD; more — star every
label but the last two. (The empty split cannot arise; the catch-all
reuses the multi-label arm.) -/
def maskDomain (domain : List Char) : List Char :=
  match splitOnChar '.' domain with
  | [_] => List.replicate domain.length '*'
  | [p1, p2] => List.replicate p1.length '*' ++ '.' :: p2
  | parts =>
      joinChar '.'
        ((parts.take (parts.length - 2)).map (fun p => List.replicate p.length '*')
          ++ parts.drop (parts.length - 2))

/-- Embeds `maskEmail` (lines 837–889): empty in, empty out; anything not
splitting into exactly two parts at `'@'` is returned verbatim; otherwise
the two parts are masked independently and rejoined. -/
def maskEmail (email : List Char) : List Char :=
  if email = [] then []
  else
    match splitOnChar '@' email with
    | [username, domain] => maskUsername username ++ '@' :: maskDomain domain
    | _ => email

/-- Masking the local part preserves its length. -/
theorem maskUsername_length (u : List Char) :
    (maskUsername u).length = u.length := by
  unfold maskUsername
  by_cases h : u.length ≤ 4
  · rw [if_pos h]
    exact List.length_replicate u.length '*'
  · rw [if_neg h]
    simp only [List.length_append, List.length_take, List.length_replicate,
      List.length_drop]
    omega

/-- Every character of the masked local part is a star or from the
original. -/
theorem mem_maskUsername (u : List Char) (a : Char)
    (ha : a ∈ maskUsername u) : a = '*' ∨ a ∈ u := by
  unfold maskUsername at ha
  by_cases h : u.length ≤ 4
  · rw [if_pos h] at ha
    exact Or.inl (List.eq_of_mem_replicate ha)
  · rw [if_neg h] at ha
    rcases List.mem_append.mp ha with ha | ha
    · rcases List.mem_append.mp ha with ha | ha
      · exact Or.inr (List.take_subset 2 u ha)
      · exact Or.inl (List.eq_of_mem_replicate ha)
    · exact Or.inr (List.drop_subset _ u ha)

/-- Every character of a join is the separator or comes from a part. -/
theorem mem_joinChar (sep : Char) (parts : List (List Char)) (a : Char)
    (ha : a ∈ joinChar sep parts) : a = sep ∨ ∃ p ∈ parts, a ∈ p := by
  induction parts with
  | nil => exact absurd ha (List.not_mem_nil a)
  | cons p rest ih =>
      cases rest with
      | nil =>
          exact Or.inr ⟨p, List.mem_cons_self p [], ha⟩
      | cons q rest' =>
          rcases List.mem_append.mp ha with ha | ha
          · exact Or.inr ⟨p, List.mem_cons_self _ _, ha⟩
          · rcases List.mem_cons.mp ha with rfl | ha
            · exact Or.inl rfl
            · rcases ih ha with h | ⟨r, hr, har⟩
              · exact Or.inl h
              · exact Or.inr ⟨r, List.mem_cons_of_mem p hr, har⟩

/-- Every character of the masked domain is a star, a dot, or from the
original. -/
theorem mem_maskDomain (d : List Char) (a : Char)
    (ha : a ∈ maskDomain d) : a = '*' ∨ a = '.' ∨ a ∈ d := by
  unfold maskDomain at ha
  rcases hsp : splitOnChar '.' d with _ | ⟨p1, _ | ⟨p2, rest⟩⟩
  · exact absurd hsp (splitOnChar_ne_nil '.' d)
  · rw [hsp] at ha
    exact Or.inl (List.eq_of_mem_replicate ha)
  · cases rest with
    | nil =>
        rw [hsp] at ha
        rcases List.mem_append.mp ha with ha | ha
        · exact Or.inl (List.eq_of_mem_replicate ha)
        · rcases List.mem_cons.mp ha with rfl | ha
          · exact Or.inr (Or.inl rfl)
          · refine Or.inr (Or.inr ?_)
            exact mem_of_mem_splitOnChar '.' d p2
              (by rw [hsp]; exact List.mem_cons_of_mem p1 (List.mem_cons_self p2 []))
              a ha
    | cons r rest' =>
        rw [hsp] at ha
        rcases mem_joinChar '.' _ a ha with h | ⟨p, hp, hap⟩
        · exact Or.inr (Or.inl h)
        · rcases List.mem_append.mp hp with hp | hp
          · rcases List.mem_map.mp hp with ⟨q, _, rfl⟩
            exact Or.inl (List.eq_of_mem_replicate hap)
          · refine Or.inr (Or.inr ?_)
            exact mem_of_mem_splitOnChar '.' d p
              (by rw [hsp]; exact List.drop_subset _ _ hp) a hap

/-- For a domain of at least two labels, masking keeps the last label. -/
theorem maskDomain_tld (d : List Char) (h2 : 2 ≤ (splitOnChar '.' d).length) :
    (splitOnChar '.' (maskDomain d)).getLast? = (splitOnChar '.' d).getLast? := by
  rcases hsp : splitOnChar '.' d with _ | ⟨p1, _ | ⟨p2, rest⟩⟩
  · exact absurd hsp (splitOnChar_ne_nil '.' d)
  · rw [hsp] at h2
    simp at h2
  · cases rest with
    | nil =>
        have hmd : maskDomain d = List.replicate p1.length '*' ++ '.' :: p2 := by
          unfold maskDomain
          rw [hsp]
        have hp2 : '.' ∉ p2 :=
          not_mem_of_mem_splitOnChar '.' d p2
            (by rw [hsp]; exact List.mem_cons_of_mem p1 (List.mem_cons_self p2 []))
        have hstars : '.' ∉ List.replicate p1.length '*' := fun hm =>
          absurd (List.eq_of_mem_replicate hm) (by decide)
        rw [hmd, splitOnChar_append '.' _ p2 hstars,
          splitOnChar_of_not_mem '.' p2 hp2]
        rfl
    | cons r rest' =>
        have hmd : maskDomain d =
            joinChar '.'
              (((p1 :: p2 :: r :: rest').take ((p1 :: p2 :: r :: rest').length - 2)).map
                  (fun p => List.replicate p.length '*')
                ++ (p1 :: p2 :: r :: rest').drop ((p1 :: p2 :: r :: rest').length - 2)) := by
          unfold maskDomain
          rw [hsp]
        have hdrop_ne :
            (p1 :: p2 :: r :: rest').drop ((p1 :: p2 :: r :: rest').length - 2) ≠ [] := by
          intro hcontra
          have := congrArg List.length hcontra
          rw [List.length_drop] at this
          simp at this
        have hfree : ∀ p ∈ ((p1 :: p2 :: r :: rest').take
              ((p1 :: p2 :: r :: rest').length - 2)).map
                (fun p => List.replicate p.length '*')
              ++ (p1 :: p2 :: r :: rest').drop ((p1 :: p2 :: r :: rest').length - 2),
            '.' ∉ p := by
          intro p hp
          rcases List.mem_append.mp hp with hp | hp
          · rcases List.mem_map.mp hp with ⟨q, _, rfl⟩
            intro hm
            exact absurd (List.eq_of_mem_replicate hm) (by decide)
          · exact not_mem_of_mem_splitOnChar '.' d p
              (by rw [hsp]; exact List.drop_subset _ _ hp)
        rw [hmd, splitOnChar_joinChar '.' _
          (fun hcontra => hdrop_ne (List.append_eq_nil.mp hcontra).2) hfree]
        rw [List.getLast?_append_of_ne_nil _ hdrop_ne]
        conv_rhs =>
          rw [← List.take_append_drop ((p1 :: p2 :: r :: rest').length - 2)
            (p1 :: p2 :: r :: rest'),
            List.getLast?_append_of_ne_nil _ hdrop_ne]

/-- C8 (amended): for every well-formed email (exactly one `'@'`), the
masked value still splits into exactly a local part and a domain at
`'@'`, the masked local part keeps the original local-part length, and
whenever the domain has at least two labels the TLD label is preserved.
(A one-label domain becomes all stars, so its only label is not kept.) -/
theorem maskEmail_shape (email u d : List Char)
    (h : splitOnChar '@' email = [u, d]) :
    splitOnChar '@' (maskEmail email) = [maskUsername u, maskDomain d] ∧
    (maskUsername u).length = u.length ∧
    (2 ≤ (splitOnChar '.' d).length →
      (splitOnChar '.' (maskDomain d)).getLast? = (splitOnChar '.' d).getLast?) := by
  have hne : email ≠ [] := by
    intro he
    subst he
    simp [splitOnChar] at h
  have hmu : '@' ∉ maskUsername u := by
    intro hm
    rcases mem_maskUsername u '@' hm with he | hmem
    · exact absurd he (by decide)
    · exact not_mem_of_mem_splitOnChar '@' email u
        (by rw [h]; exact List.mem_cons_self _ _) hmem
  have hmd : '@' ∉ maskDomain d := by
    intro hm
    rcases mem_maskDomain d '@' hm with he | he | hmem
    · exact absurd he (by decide)
    · exact absurd he (by decide)
    · exact not_mem_of_mem_splitOnChar '@' email d
        (by rw [h]; exact List.mem_cons_of_mem u (List.mem_cons_self d [])) hmem
  have hmask : maskEmail email = maskUsername u ++ '@' :: maskDomain d := by
    unfold maskEmail
    rw [if_neg hne, h]
  refine ⟨?_, maskUsername_length u, maskDomain_tld d⟩
  rw [hmask, splitOnChar_append '@' _ _ hmu, splitOnChar_of_not_mem '@' _ hmd]

/-- C8 counterexample: `ab@xy` is a well-formed email whose one-label
domain is starred out, so the claimed preservation of the TLD label
fails: the original last label is `xy`, the masked one is `**`. -/
theorem maskEmail_one_label_tld_lost :
    maskEmail "ab@xy".toList = "**@**".toList ∧
    (splitOnChar '@' "ab@xy".toList).length = 2 ∧
    (splitOnChar '.' "xy".toList).getLast? = some "xy".toList ∧
    (splitOnChar '.' "**".toList).getLast? = some "**".toList ∧
    "**".toList ≠ "xy".toList := by
  exact ⟨by decide, by decide, by decide, by decide, by decide⟩

/-- Witness for `maskEmail_shape`: applied to
`caidaolihz888@sun.edu.pl` from the source's doc comment. -/
theorem maskEmail_shape_witness :
    splitOnChar '@' (maskEmail "caidaolihz888@sun.edu.pl".toList)
      = [maskUsername "caidaolihz888".toList, maskDomain "sun.edu.pl".toList] ∧
    (maskUsername "caidaolihz888".toList).length = ("caidaolihz888".toList).length ∧
    (splitOnChar '.' (maskDomain "sun.edu.pl".toList)).getLast?
      = (splitOnChar '.' "sun.edu.pl".toList).getLast? := by
  have h := maskEmail_shape "caidaolihz888@sun.edu.pl".toList
    "caidaolihz888".toList "sun.edu.pl".toList (by decide)
  exact ⟨h.1, h.2.1, h.2.2 (by decide)⟩

/-- C10: `maskEmail` returns the empty string on empty input, and returns
any input that does not split into exactly two parts at `'@'` completely
unchanged. -/
theorem maskEmail_invalid_passthrough :
    maskEmail [] = [] ∧
    (∀ e : List Char, (splitOnChar '@' e).length ≠ 2 → maskEmail e = e) := by
  refine ⟨rfl, ?_⟩
  intro e he
  unfold maskEmail
  by_cases hne : e = []
  · rw [if_pos hne, hne]
  · rw [if_neg hne]
    rcases hsp : splitOnChar '@' e with _ | ⟨a, _ | ⟨b, _ | ⟨c, t⟩⟩⟩
    · rfl
    · rfl
    · rw [hsp] at he
      simp at he
    · rfl

/-- Witness for `maskEmail_invalid_passthrough`: a string with two `'@'`
characters is exposed verbatim. -/
theorem maskEmail_invalid_passthrough_witness :
    maskEmail "a@b@c".toList = "a@b@c".toList :=
  maskEmail_invalid_passthrough.2 "a@b@c".toList (by decide)

end Kiro2api
